import Mathlib

/-!
Verification development for the growing-tree leaf-collection service
(`src/routes/leaves.js`, `src/app.js`, `src/server.js`).

The JavaScript source is shallowly embedded: each route handler becomes a
pure Lean function from the store state (and the request body) to the
response and the successor state.  JavaScript numbers that the program uses
as leaf indices are embedded as `Int` (the program only ever manipulates
integral indices); ISO-8601 timestamp strings are kept as `String`s, whose
lexicographic order coincides with chronological order for the fixed-width
UTC format `new Date().toISOString()` produces.
-/

/-- The `position` display-hint structure `{left, top, rotation}` of a leaf
record: three strings such as `"28%"` or `"180deg"`. -/
structure Position where
  left : String
  top : String
  rotation : String
deriving DecidableEq

/-- One persisted leaf record, as built by the POST handler in
`src/routes/leaves.js`. -/
structure Leaf where
  index : Int
  timestamp : String
  source : String
  position : Position
deriving DecidableEq

/-- The body of a `POST /api/leaves` request: the `index` field as received
by the handler (absent, present but not a number, or a number), plus the
optional `position` and `source` fields. -/
inductive IndexField where
  | missing
  | notNumber
  | num (i : Int)
deriving DecidableEq

structure CreateRequest where
  index : IndexField
  position : Option Position
  source : Option String
deriving DecidableEq

/-- JavaScript `s || d` for the `source` field: `undefined` and the empty
string are falsy, so both fall back to the default. -/
def jsOrString (s : Option String) (d : String) : String :=
  match s with
  | none => d
  | some s => if s = "" then d else s

/-- Renders `n` half-units as a JavaScript number string: `72` ↦ `"36"`,
`63` ↦ `"31.5"`.  Embeds how `30 + index * 1.5` prints in a template
literal for an integral `index`. -/
def halfToString (n : Nat) : String :=
  if n % 2 = 0 then toString (n / 2) else toString (n / 2) ++ ".5"

/-- The default `position` computed from the leaf index in the POST handler:
`left = 20 + 2k %`, `top = 30 + 1.5k %` (tracked in half-units), and
`rotation = 45k deg`. -/
def defaultPosition (k : Nat) : Position where
  left := toString (20 + k * 2) ++ "%"
  top := halfToString (60 + k * 3) ++ "%"
  rotation := toString (k * 45) ++ "deg"

/-- A concrete record for instantiating theorems: a leaf as the handler
itself would build it from a bare index. -/
def sampleLeaf (i : Int) (ts : String) : Leaf :=
  { index := i, timestamp := ts, source := "manual",
    position := defaultPosition i.toNat }

/-- The `while (usedIndices.includes(nextIndex)) nextIndex++` loop of the
POST handler, with explicit fuel (the loop in the source terminates because
a list of `|used|` values cannot contain all of `0..|used|`). -/
def mexLoop (used : List Int) : Nat → Nat → Nat
  | 0, n => n
  | fuel + 1, n => if (n : Int) ∈ used then mexLoop used fuel (n + 1) else n

/-- The auto-generate step of the POST handler: scan upward from zero for
the first value not in `used`. -/
def nextFreeIndex (used : List Int) : Nat :=
  mexLoop used (used.length + 1) 0

/-- The outcome of a `POST /api/leaves` request: HTTP status, `success`
flag, the `leaf` field of the response body, the collection as persisted
after the request, and whether `saveLeaves` was invoked at all. -/
structure PostResult where
  status : Nat
  success : Bool
  leaf : Option Leaf
  finalLeaves : List Leaf
  wrote : Bool
deriving DecidableEq

/-- The tail of the POST handler shared by both creating branches:
`leaves.push(newLeaf)` followed by `saveLeaves(leaves)`; on success respond
201 with the new leaf, on save failure respond 500 (the pushed record was
never durably committed, so the persisted collection is unchanged). -/
def finishCreate (leaves : List Leaf) (newLeaf : Leaf) (saveOk : Bool) :
    PostResult :=
  if saveOk then
    { status := 201, success := true, leaf := some newLeaf,
      finalLeaves := leaves ++ [newLeaf], wrote := true }
  else
    { status := 500, success := false, leaf := none,
      finalLeaves := leaves, wrote := true }

/-- The `else` branch of the POST handler: auto-generate the next available
index and build the new record from it. -/
def autoIndexBranch (leaves : List Leaf) (req : CreateRequest) (now : String)
    (saveOk : Bool) : PostResult :=
  let usedIndices := leaves.map (·.index)
  let nextIndex := nextFreeIndex usedIndices
  let newLeaf : Leaf :=
    { index := (nextIndex : Int), timestamp := now,
      source := jsOrString req.source "manual",
      position := req.position.getD (defaultPosition nextIndex) }
  finishCreate leaves newLeaf saveOk

/-- The `POST /api/leaves` handler.  `typeof index === 'number' && index >= 0`
selects the supplied-index branch; there it either echoes an existing record
with the same index (HTTP 200, no write) or builds a record with the
caller's index.  Every other shape of `index` falls into the auto-generate
branch.  `now` is the ISO timestamp taken at the call; `saveOk` is whether
the `saveLeaves` call succeeds. -/
def postLeafHandler (leaves : List Leaf) (req : CreateRequest) (now : String)
    (saveOk : Bool) : PostResult :=
  match req.index with
  | .num i =>
    if 0 ≤ i then
      match leaves.find? (fun l => l.index == i) with
      | some existingLeaf =>
        { status := 200, success := true, leaf := some existingLeaf,
          finalLeaves := leaves, wrote := false }
      | none =>
        let newLeaf : Leaf :=
          { index := i, timestamp := now,
            source := jsOrString req.source "manual",
            position := req.position.getD (defaultPosition i.toNat) }
        finishCreate leaves newLeaf saveOk
    else
      autoIndexBranch leaves req now saveOk
  | _ => autoIndexBranch leaves req now saveOk

/-- The outcome of a clear request: HTTP status, `success` flag and the
collection as persisted afterwards. -/
structure ClearResult where
  status : Nat
  success : Bool
  finalLeaves : List Leaf
deriving DecidableEq

/-- The `DELETE /api/leaves` handler: `saveLeaves([])`, respond 200 on
success and 500 on failure (a failed write leaves the prior state). -/
def deleteLeavesHandler (leaves : List Leaf) (saveOk : Bool) : ClearResult :=
  if saveOk then
    { status := 200, success := true, finalLeaves := [] }
  else
    { status := 500, success := false, finalLeaves := leaves }

/-- The `GET /api/leaves/clear` handler: also `saveLeaves([])` with a 200
response on success and 500 on failure. -/
def clearGetHandler (leaves : List Leaf) (saveOk : Bool) : ClearResult :=
  if saveOk then
    { status := 200, success := true, finalLeaves := [] }
  else
    { status := 500, success := false, finalLeaves := leaves }

/-- A sequential store operation: one create or one clear request (list and
stats requests are modelled separately since they do not call
`saveLeaves`). -/
inductive StoreOp where
  | createOp (req : CreateRequest) (now : String) (saveOk : Bool)
  | clearOp (saveOk : Bool)

/-- The persisted collection after one operation. -/
def applyOp (leaves : List Leaf) : StoreOp → List Leaf
  | .createOp req now saveOk => (postLeafHandler leaves req now saveOk).finalLeaves
  | .clearOp saveOk => (deleteLeavesHandler leaves saveOk).finalLeaves

/-- At most one record per index value. -/
def UniqueIndices (leaves : List Leaf) : Prop :=
  (leaves.map (·.index)).Nodup

/-- A JSON document, as produced by `JSON.parse` / consumed by
`JSON.stringify`.  Only the fragment the program writes is needed. -/
inductive Json where
  | str (s : String)
  | num (i : Int)
  | arr (elems : List Json)
  | obj (fields : List (String × Json))

/-- The on-disk state of `data/leaves-data.json`: absent, present but
malformed (so that `JSON.parse` throws), or present with a well-formed
document. -/
inductive FileContent where
  | parseError
  | json (v : Json)

abbrev FileState := Option FileContent

/-- The file branch of `readLeaves()`: if the file exists, read and parse
it, catching any error by logging and returning `[]`; if it does not
exist, return `[]`. -/
def readLeavesFile (fs : FileState) : Json :=
  match fs with
  | some .parseError => Json.arr []
  | some (.json v) => v
  | none => Json.arr []

/-- The Vercel branch of `readLeaves()`: return the global storage when it
is non-empty (by reference, not a copy), otherwise a fresh empty array. -/
def readLeavesVercel (storage : List Leaf) : List Leaf :=
  if storage.length > 0 then storage else []

/-- JSON encoding of one leaf record, as `JSON.stringify` lays it out. -/
def encodeLeaf (l : Leaf) : Json :=
  Json.obj
    [("index", Json.num l.index),
     ("timestamp", Json.str l.timestamp),
     ("source", Json.str l.source),
     ("position", Json.obj
       [("left", Json.str l.position.left),
        ("top", Json.str l.position.top),
        ("rotation", Json.str l.position.rotation)])]

def encodeLeaves (leaves : List Leaf) : Json :=
  Json.arr (leaves.map encodeLeaf)

/-- Reading a leaf record back out of a parsed JSON document. -/
def decodeLeaf : Json → Option Leaf
  | Json.obj
      [("index", Json.num i),
       ("timestamp", Json.str t),
       ("source", Json.str s),
       ("position", Json.obj
         [("left", Json.str lf),
          ("top", Json.str tp),
          ("rotation", Json.str ro)])] =>
    some { index := i, timestamp := t, source := s,
           position := { left := lf, top := tp, rotation := ro } }
  | _ => none

/-- Reading a whole record list back, element by element; any element that
is not a leaf object makes the document undecodable. -/
def decodeLeafList : List Json → Option (List Leaf)
  | [] => some []
  | j :: rest =>
    match decodeLeaf j, decodeLeafList rest with
    | some l, some ls => some (l :: ls)
    | _, _ => none

def decodeLeaves : Json → Option (List Leaf)
  | Json.arr elems => decodeLeafList elems
  | _ => none

/-- The file branch of `saveLeaves(leaves)`: overwrite the file with the
serialized collection and return `true`; a thrown write error is caught and
reported as `false` (mid-write corruption is out of scope, per the spec the
failed state is simply not the written collection). -/
def saveLeavesFile (leaves : List Leaf) (fs : FileState) (writeOk : Bool) :
    FileState × Bool :=
  if writeOk then (some (FileContent.json (encodeLeaves leaves)), true)
  else (fs, false)

/-- The Vercel branch of `saveLeaves(leaves)`: replace the global storage
with a copy of the collection and return `true`. -/
def saveLeavesVercel (leaves : List Leaf) : List Leaf × Bool :=
  (leaves, true)

/-- The comparator `(a, b) => new Date(b.timestamp) - new Date(a.timestamp)`
passed to `Array.prototype.sort`: descending by timestamp.  ISO-8601 UTC
timestamps of the fixed `toISOString` width compare chronologically as
strings. -/
def sortLeavesByTimestampDesc (leaves : List Leaf) : List Leaf :=
  leaves.mergeSort (fun a b => decide (b.timestamp ≤ a.timestamp))

/-- The `recentLeaves` field of `GET /api/leaves/stats`: the sort above,
then `slice(0, 5)`. -/
def statsRecentLeaves (leaves : List Leaf) : List Leaf :=
  (sortLeavesByTimestampDesc leaves).take 5

/-- The ephemeral global storage after a `GET /api/leaves/stats` request.
`readLeaves()` on Vercel hands out the global array itself when it is
non-empty, and `Array.prototype.sort` reorders that array in place, so the
stored collection ends up sorted; an empty storage yields a fresh `[]` and
stays untouched. -/
def statsVercelPostStorage (storage : List Leaf) : List Leaf :=
  if storage.length > 0 then sortLeavesByTimestampDesc storage else storage

/-- The data file after a `GET /api/leaves/stats` request in file-backed
mode: the handler parses a fresh array and never calls `saveLeaves`, so the
file is untouched. -/
def statsFilePostState (fs : FileState) : FileState := fs

/-- The ephemeral global storage after a `GET /api/leaves` (list) request:
the handler only reads and serializes, mutating nothing. -/
def listVercelPostStorage (storage : List Leaf) : List Leaf := storage

/-- The data file after a `GET /api/leaves` (list) request in file-backed
mode. -/
def listFilePostState (fs : FileState) : FileState := fs

/-- The state of the data directory as the readiness check can observe it. -/
inductive DirState where
  | missingDir
  | notWritable
  | writable
deriving DecidableEq

/-- A JavaScript value as it matters for truthiness in the readiness
check: `fs.accessSync` yields `undefined`, `&&` can short-circuit to a
boolean. -/
inductive JsVal where
  | undef
  | jsBool (b : Bool)
deriving DecidableEq

def truthy : JsVal → Bool
  | .undef => false
  | .jsBool b => b

def existsSyncDir : DirState → Bool
  | .missingDir => false
  | .notWritable => true
  | .writable => true

/-- `fs.accessSync(dataDir, fs.constants.W_OK)`: returns `undefined` when
access is permitted and throws otherwise. -/
def accessSyncW : DirState → Except String JsVal
  | .writable => Except.ok JsVal.undef
  | .notWritable => Except.error "EACCES"
  | .missingDir => Except.error "ENOENT"

/-- The expression `fs.existsSync(dataDir) && fs.accessSync(dataDir, W_OK)`
with JavaScript short-circuit and exception semantics: `false` when the
directory is missing, otherwise whatever `accessSync` produces. -/
def isWritableExpr (d : DirState) : Except String JsVal :=
  if existsSyncDir d then accessSyncW d else Except.ok (JsVal.jsBool false)

structure ReadyResponse where
  status : Nat
  statusText : String
deriving DecidableEq

/-- The `GET /api/health/ready` handler: respond READY when `isWritable` is
truthy, NOT_READY (503) when it is falsy, and NOT_READY (503) from the
`catch` when evaluating it throws. -/
def readyHandler (d : DirState) : ReadyResponse :=
  match isWritableExpr d with
  | Except.ok v =>
    if truthy v then { status := 200, statusText := "READY" }
    else { status := 503, statusText := "NOT_READY" }
  | Except.error _ => { status := 503, statusText := "NOT_READY" }

/-- Pigeonhole: some value in `0..used.length` is missing from `used`. -/
theorem exists_nat_le_length_not_mem (used : List Int) :
    ∃ k : Nat, k ≤ used.length ∧ (k : Int) ∉ used := by
  by_contra h
  push_neg at h
  have hsub : (Finset.range (used.length + 1)).image (fun k : Nat => (k : Int))
      ⊆ used.toFinset := by
    intro x hx
    simp only [Finset.mem_image, Finset.mem_range] at hx
    obtain ⟨k, hk, rfl⟩ := hx
    exact List.mem_toFinset.mpr (h k (Nat.lt_succ_iff.mp hk))
  have hcard := Finset.card_le_card hsub
  rw [Finset.card_image_of_injective _ (fun a b hab => Int.ofNat_inj.mp hab),
    Finset.card_range] at hcard
  have := used.toFinset_card_le
  omega

/-- Correctness of the scan loop: with enough fuel it returns the least
value `≥ start` whose cast is not in `used`. -/
theorem mexLoop_correct (used : List Int) :
    ∀ (fuel start : Nat),
      (∃ k : Nat, start ≤ k ∧ k < start + fuel ∧ (k : Int) ∉ used) →
      ((mexLoop used fuel start : Int) ∉ used ∧
        ∀ m : Nat, start ≤ m → m < mexLoop used fuel start → (m : Int) ∈ used) := by
  intro fuel
  induction fuel with
  | zero =>
    intro start ⟨k, hk1, hk2, _⟩
    omega
  | succ fuel ih =>
    intro start ⟨k, hk1, hk2, hk3⟩
    simp only [mexLoop]
    by_cases hmem : (start : Int) ∈ used
    · rw [if_pos hmem]
      have hks : start ≠ k := fun h => hk3 (h ▸ hmem)
      have hrec := ih (start + 1) ⟨k, by omega, by omega, hk3⟩
      refine ⟨hrec.1, fun m hm1 hm2 => ?_⟩
      rcases Nat.eq_or_lt_of_le hm1 with hEq | hlt
      · exact hEq ▸ hmem
      · exact hrec.2 m hlt hm2
    · rw [if_neg hmem]
      exact ⟨hmem, fun m hm1 hm2 => absurd (Nat.lt_of_le_of_lt hm1 hm2)
        (Nat.lt_irrefl start)⟩

/-- `nextFreeIndex` computes the least non-negative integer whose cast is
absent from `used`. -/
theorem nextFreeIndex_correct (used : List Int) :
    ((nextFreeIndex used : Int) ∉ used ∧
      ∀ m : Nat, m < nextFreeIndex used → (m : Int) ∈ used) := by
  obtain ⟨k, hk1, hk2⟩ := exists_nat_le_length_not_mem used
  have h := mexLoop_correct used (used.length + 1) 0 ⟨k, Nat.zero_le k, by omega, hk2⟩
  exact ⟨h.1, fun m hm => h.2 m (Nat.zero_le m) hm⟩

/-- C1: invoking the create operation without an `index` assigns to the new
record the smallest non-negative integer not present among the existing
records' index values, appends that record, and persists the result. -/
theorem post_without_index_assigns_smallest_free (leaves : List Leaf)
    (req : CreateRequest) (now : String)
    (hidx : req.index = IndexField.missing) :
    (postLeafHandler leaves req now true).status = 201 ∧
    (postLeafHandler leaves req now true).wrote = true ∧
    ∃ nl : Leaf,
      (postLeafHandler leaves req now true).leaf = some nl ∧
      (postLeafHandler leaves req now true).finalLeaves = leaves ++ [nl] ∧
      nl.index = (nextFreeIndex (leaves.map (·.index)) : Int) ∧
      nl.index ∉ leaves.map (·.index) ∧
      (∀ m : Nat, (m : Int) < nl.index → (m : Int) ∈ leaves.map (·.index)) ∧
      0 ≤ nl.index := by
  have hmex := nextFreeIndex_correct (leaves.map (·.index))
  obtain ⟨idx, pos, src⟩ := req
  have hidx' : idx = IndexField.missing := hidx
  subst hidx'
  refine ⟨rfl, rfl, _, rfl, rfl, rfl, hmex.1, ?_, Int.natCast_nonneg _⟩
  intro m hm
  have hm' : (m : Int) < (nextFreeIndex (leaves.map (·.index)) : Int) := hm
  exact hmex.2 m (by exact_mod_cast hm')

/-- C1 witness: with existing indices `{0, 1, 3}` the new leaf gets
index 2. -/
theorem post_without_index_assigns_smallest_free_witness :
    ((⟨IndexField.missing, none, none⟩ : CreateRequest).index =
      IndexField.missing) ∧
    ((postLeafHandler [sampleLeaf 0 "a", sampleLeaf 1 "b", sampleLeaf 3 "c"]
        ⟨IndexField.missing, none, none⟩ "d" true).status = 201 ∧
      (postLeafHandler [sampleLeaf 0 "a", sampleLeaf 1 "b", sampleLeaf 3 "c"]
        ⟨IndexField.missing, none, none⟩ "d" true).wrote = true ∧
      ∃ nl : Leaf,
        (postLeafHandler [sampleLeaf 0 "a", sampleLeaf 1 "b", sampleLeaf 3 "c"]
          ⟨IndexField.missing, none, none⟩ "d" true).leaf = some nl ∧
        (postLeafHandler [sampleLeaf 0 "a", sampleLeaf 1 "b", sampleLeaf 3 "c"]
          ⟨IndexField.missing, none, none⟩ "d" true).finalLeaves =
          [sampleLeaf 0 "a", sampleLeaf 1 "b", sampleLeaf 3 "c"] ++ [nl] ∧
        nl.index = (nextFreeIndex
          ([sampleLeaf 0 "a", sampleLeaf 1 "b", sampleLeaf 3 "c"].map
            (·.index)) : Int) ∧
        nl.index ∉ [sampleLeaf 0 "a", sampleLeaf 1 "b", sampleLeaf 3 "c"].map
          (·.index) ∧
        (∀ m : Nat, (m : Int) < nl.index →
          (m : Int) ∈ [sampleLeaf 0 "a", sampleLeaf 1 "b",
            sampleLeaf 3 "c"].map (·.index)) ∧
        0 ≤ nl.index) ∧
    nextFreeIndex ([sampleLeaf 0 "a", sampleLeaf 1 "b",
      sampleLeaf 3 "c"].map (·.index)) = 2 :=
  ⟨rfl,
   post_without_index_assigns_smallest_free
     [sampleLeaf 0 "a", sampleLeaf 1 "b", sampleLeaf 3 "c"]
     ⟨IndexField.missing, none, none⟩ "d" rfl,
   by decide⟩

/-- C2: when the supplied `index` is already present in a well-formed
collection, the create operation is a no-op: the persisted collection is
unchanged, `saveLeaves` is never called, and the response is HTTP 200 (not
201) echoing a pre-existing record with that index. -/
theorem post_duplicate_index_is_noop (leaves : List Leaf) (i : Int)
    (req : CreateRequest) (now : String) (saveOk : Bool)
    (hwf : ∀ l ∈ leaves, 0 ≤ l.index)
    (hidx : req.index = IndexField.num i)
    (hmem : ∃ l ∈ leaves, l.index = i) :
    (postLeafHandler leaves req now saveOk).status = 200 ∧
    (postLeafHandler leaves req now saveOk).success = true ∧
    (postLeafHandler leaves req now saveOk).finalLeaves = leaves ∧
    (postLeafHandler leaves req now saveOk).wrote = false ∧
    ∃ l : Leaf, (postLeafHandler leaves req now saveOk).leaf = some l ∧
      l ∈ leaves ∧ l.index = i := by
  obtain ⟨idx, pos, src⟩ := req
  have hidx' : idx = IndexField.num i := hidx
  subst hidx'
  obtain ⟨l0, hl0, hl0i⟩ := hmem
  have hi : 0 ≤ i := hl0i ▸ hwf l0 hl0
  cases hfind : leaves.find? (fun l => l.index == i) with
  | none =>
    exact absurd (beq_iff_eq.mpr hl0i)
      (List.find?_eq_none.mp hfind l0 hl0)
  | some l =>
    have hmeml : l ∈ leaves := List.mem_of_find?_eq_some hfind
    have hli : l.index = i := by
      have h := List.find?_some hfind
      simpa [beq_iff_eq] using h
    refine ⟨?_, ?_, ?_, ?_, l, ?_, hmeml, hli⟩ <;>
      simp [postLeafHandler, hfind, hi]

/-- C2 witness: a collection holding indices 0 and 1, a request supplying
index 1. -/
theorem post_duplicate_index_is_noop_witness :
    (∀ l ∈ [sampleLeaf 0 "a", sampleLeaf 1 "b"], 0 ≤ l.index) ∧
    ((⟨IndexField.num 1, none, none⟩ : CreateRequest).index =
      IndexField.num 1) ∧
    (∃ l ∈ [sampleLeaf 0 "a", sampleLeaf 1 "b"], l.index = 1) ∧
    ((postLeafHandler [sampleLeaf 0 "a", sampleLeaf 1 "b"]
        ⟨IndexField.num 1, none, none⟩ "c" true).status = 200 ∧
      (postLeafHandler [sampleLeaf 0 "a", sampleLeaf 1 "b"]
        ⟨IndexField.num 1, none, none⟩ "c" true).success = true ∧
      (postLeafHandler [sampleLeaf 0 "a", sampleLeaf 1 "b"]
        ⟨IndexField.num 1, none, none⟩ "c" true).finalLeaves =
        [sampleLeaf 0 "a", sampleLeaf 1 "b"] ∧
      (postLeafHandler [sampleLeaf 0 "a", sampleLeaf 1 "b"]
        ⟨IndexField.num 1, none, none⟩ "c" true).wrote = false ∧
      ∃ l : Leaf,
        (postLeafHandler [sampleLeaf 0 "a", sampleLeaf 1 "b"]
          ⟨IndexField.num 1, none, none⟩ "c" true).leaf = some l ∧
        l ∈ [sampleLeaf 0 "a", sampleLeaf 1 "b"] ∧ l.index = 1) :=
  ⟨by decide, rfl, ⟨sampleLeaf 1 "b", by decide, by decide⟩,
   post_duplicate_index_is_noop [sampleLeaf 0 "a", sampleLeaf 1 "b"] 1
     ⟨IndexField.num 1, none, none⟩ "c" true (by decide) rfl
     ⟨sampleLeaf 1 "b", by decide, by decide⟩⟩

/-- C3 counterexample: a create request supplying the invalid index `-1`
is not rejected with a client error; the handler responds 201 (Created)
and a record is appended.  The same holds for a non-numeric index. -/
theorem post_invalid_index_not_rejected :
    (postLeafHandler [] ⟨IndexField.num (-1), none, none⟩ "a" true).status =
      201 ∧
    (postLeafHandler [] ⟨IndexField.num (-1), none, none⟩ "a"
      true).finalLeaves.length = 1 ∧
    (postLeafHandler [] ⟨IndexField.notNumber, none, none⟩ "a" true).status =
      201 := by
  refine ⟨?_, ?_, ?_⟩ <;> decide

/-- C3 amended: a supplied `index` that is not a number or is negative is
not validated at all — the handler treats the request exactly as if `index`
had been omitted, running the auto-generate branch (so a record is created
and the response is 201/500, never a 4xx client error). -/
theorem post_invalid_index_treated_as_missing (leaves : List Leaf)
    (req : CreateRequest) (now : String) (saveOk : Bool)
    (hinv : req.index = IndexField.notNumber ∨
      ∃ i : Int, i < 0 ∧ req.index = IndexField.num i) :
    postLeafHandler leaves req now saveOk =
      postLeafHandler leaves ⟨IndexField.missing, req.position, req.source⟩
        now saveOk := by
  obtain ⟨idx, pos, src⟩ := req
  rcases hinv with h | ⟨i, hneg, h⟩
  · have h' : idx = IndexField.notNumber := h
    subst h'
    rfl
  · have h' : idx = IndexField.num i := h
    subst h'
    show (if 0 ≤ i then _ else autoIndexBranch leaves _ now saveOk) = _
    rw [if_neg (by omega)]
    rfl

/-- C3 amended witness: the request supplying index `-1` against the empty
collection. -/
theorem post_invalid_index_treated_as_missing_witness :
    ((⟨IndexField.num (-1), none, none⟩ : CreateRequest).index =
        IndexField.notNumber ∨
      ∃ i : Int, i < 0 ∧
        (⟨IndexField.num (-1), none, none⟩ : CreateRequest).index =
          IndexField.num i) ∧
    postLeafHandler [] ⟨IndexField.num (-1), none, none⟩ "a" true =
      postLeafHandler []
        ⟨IndexField.missing,
          (⟨IndexField.num (-1), none, none⟩ : CreateRequest).position,
          (⟨IndexField.num (-1), none, none⟩ : CreateRequest).source⟩
        "a" true :=
  ⟨Or.inr ⟨-1, by decide, rfl⟩,
   post_invalid_index_treated_as_missing [] ⟨IndexField.num (-1), none, none⟩
     "a" true (Or.inr ⟨-1, by decide, rfl⟩)⟩

/-- C4: the readiness check reports NOT_READY (503) in every observable
state of the data directory — including the state where the directory
exists and is write-accessible, in which both the spec and the handler's
own READY branch say it should report ready.  `fs.accessSync` returns
`undefined` on success, so `existsSync(dir) && accessSync(dir, W_OK)` is
never truthy: the READY branch is unreachable. -/
theorem readyHandler_always_not_ready (d : DirState) :
    readyHandler d = { status := 503, statusText := "NOT_READY" } := by
  cases d <;> rfl

/-- C6: `readLeaves()` never propagates an error: the file branch yields
the parsed on-disk document when the file exists and parses, an empty
array when the file is absent, and an empty array when parsing throws
(after logging); the Vercel branch yields the in-memory global storage,
defaulting to empty. -/
theorem readLeaves_never_raises :
    (∀ v : Json, readLeavesFile (some (FileContent.json v)) = v) ∧
    readLeavesFile none = Json.arr [] ∧
    readLeavesFile (some FileContent.parseError) = Json.arr [] ∧
    (∀ storage : List Leaf, readLeavesVercel storage = storage) := by
  refine ⟨fun v => rfl, rfl, rfl, fun storage => ?_⟩
  cases storage <;> simp [readLeavesVercel]

/-- C10: `DELETE /api/leaves` and `GET /api/leaves/clear` perform the same
state transition — both persist the empty collection via `saveLeaves([])` —
and report the same success flag; on a successful write both leave the
store empty and report success. -/
theorem delete_and_clearGet_equivalent (leaves : List Leaf) (saveOk : Bool) :
    deleteLeavesHandler leaves saveOk = clearGetHandler leaves saveOk ∧
    (deleteLeavesHandler leaves true).finalLeaves = [] ∧
    (deleteLeavesHandler leaves true).success = true ∧
    (clearGetHandler leaves true).finalLeaves = [] ∧
    (clearGetHandler leaves true).success = true :=
  ⟨rfl, rfl, rfl, rfl, rfl⟩

/-- C5 counterexample: in ephemeral (Vercel) mode a stats request reorders
the stored collection.  `readLeaves()` returns the global array by
reference and the handler sorts it in place, so after stats on the storage
`[index 0 at "a", index 1 at "b"]` the stored order is reversed. -/
theorem stats_mutates_vercel_storage :
    statsVercelPostStorage [sampleLeaf 0 "a", sampleLeaf 1 "b"] ≠
      [sampleLeaf 0 "a", sampleLeaf 1 "b"] ∧
    statsVercelPostStorage [sampleLeaf 0 "a", sampleLeaf 1 "b"] =
      [sampleLeaf 1 "b", sampleLeaf 0 "a"] := by
  have h : statsVercelPostStorage [sampleLeaf 0 "a", sampleLeaf 1 "b"] =
      [sampleLeaf 1 "b", sampleLeaf 0 "a"] := by
    simp [statsVercelPostStorage, sortLeavesByTimestampDesc, List.mergeSort,
      List.merge, sampleLeaf]
    decide
  refine ⟨?_, h⟩
  rw [h]
  decide

/-- C5 amended: list requests never change the stored collection in either
mode, and stats requests never change it in file-backed mode; in ephemeral
mode a stats request leaves the stored records intact only up to order — it
permutes the global storage (in-place sort, descending by timestamp). -/
theorem list_stats_frame_effects :
    (∀ fs : FileState, listFilePostState fs = fs) ∧
    (∀ fs : FileState, statsFilePostState fs = fs) ∧
    (∀ storage : List Leaf, listVercelPostStorage storage = storage) ∧
    (∀ storage : List Leaf, (statsVercelPostStorage storage).Perm storage) := by
  refine ⟨fun fs => rfl, fun fs => rfl, fun storage => rfl, fun storage => ?_⟩
  unfold statsVercelPostStorage
  split
  · exact List.mergeSort_perm storage _
  · exact List.Perm.refl storage

/-- Decoding inverts encoding on a single record. -/
theorem decodeLeaf_encodeLeaf (l : Leaf) : decodeLeaf (encodeLeaf l) = some l := by
  obtain ⟨i, t, s, ⟨lf, tp, ro⟩⟩ := l
  rfl

/-- Decoding inverts encoding on a whole collection. -/
theorem decodeLeaves_encodeLeaves (leaves : List Leaf) :
    decodeLeaves (encodeLeaves leaves) = some leaves := by
  induction leaves with
  | nil => rfl
  | cons h t ih =>
    simp only [encodeLeaves, decodeLeaves, List.map_cons, decodeLeafList,
      decodeLeaf_encodeLeaf]
    simp only [encodeLeaves, decodeLeaves] at ih
    rw [ih]

/-- C7: in file-backed mode, writing a collection and then reading it back
from the same store yields an equal sequence of records: the read returns
the document the write serialized, and that document decodes to exactly
the written records. -/
theorem save_then_read_roundtrip (leaves : List Leaf) (fs : FileState) :
    readLeavesFile (saveLeavesFile leaves fs true).1 = encodeLeaves leaves ∧
    decodeLeaves (readLeavesFile (saveLeavesFile leaves fs true).1) =
      some leaves ∧
    (saveLeavesFile leaves fs true).2 = true := by
  refine ⟨rfl, ?_, rfl⟩
  exact decodeLeaves_encodeLeaves leaves

/-- Shape of a freshly created record: whenever the POST handler answers
201 with leaf `nl`, its timestamp is the request time, its source is the
caller's (or `"manual"`), and its position is the caller's (or the default
computed from its own index). -/
theorem postLeafHandler_created_leaf (leaves : List Leaf) (req : CreateRequest)
    (now : String) (nl : Leaf)
    (hleaf : (postLeafHandler leaves req now true).leaf = some nl)
    (hst : (postLeafHandler leaves req now true).status = 201) :
    nl.timestamp = now ∧ nl.source = jsOrString req.source "manual" ∧
    nl.position = req.position.getD (defaultPosition nl.index.toNat) := by
  obtain ⟨idx, pos, src⟩ := req
  cases idx with
  | missing =>
    simp only [postLeafHandler, autoIndexBranch, finishCreate, if_true,
      Option.some.injEq] at hleaf
    subst hleaf
    exact ⟨rfl, rfl, rfl⟩
  | notNumber =>
    simp only [postLeafHandler, autoIndexBranch, finishCreate, if_true,
      Option.some.injEq] at hleaf
    subst hleaf
    exact ⟨rfl, rfl, rfl⟩
  | num i =>
    by_cases hi : 0 ≤ i
    · cases hfind : leaves.find? (fun l => l.index == i) with
      | some existing =>
        simp only [postLeafHandler, if_pos hi, hfind] at hst
        exact absurd hst (by decide)
      | none =>
        simp only [postLeafHandler, if_pos hi, hfind, finishCreate, if_true,
          Option.some.injEq] at hleaf
        subst hleaf
        exact ⟨rfl, rfl, rfl⟩
    · simp only [postLeafHandler, if_neg hi, autoIndexBranch, finishCreate,
        if_true, Option.some.injEq] at hleaf
      subst hleaf
      exact ⟨rfl, rfl, rfl⟩

/-- C8: when no `position` is supplied, the created record's position is
computed from its index `k` as `left = (20 + 2k)%`,
`top = (30 + 1.5k)%` (the half-unit `60 + 3k` rendered as a JavaScript
number), `rotation = (45k)deg`; in particular index 4 yields
`"28%"`, `"36%"`, `"180deg"`. -/
theorem post_default_position_from_index (leaves : List Leaf)
    (req : CreateRequest) (now : String) (nl : Leaf)
    (hpos : req.position = none)
    (hleaf : (postLeafHandler leaves req now true).leaf = some nl)
    (hst : (postLeafHandler leaves req now true).status = 201) :
    nl.position.left = toString (20 + nl.index.toNat * 2) ++ "%" ∧
    nl.position.top = halfToString (60 + nl.index.toNat * 3) ++ "%" ∧
    nl.position.rotation = toString (nl.index.toNat * 45) ++ "deg" ∧
    defaultPosition 4 =
      { left := "28%", top := "36%", rotation := "180deg" } := by
  have h := (postLeafHandler_created_leaf leaves req now nl hleaf hst).2.2
  rw [hpos] at h
  refine ⟨?_, ?_, ?_, by decide⟩ <;> rw [h] <;> rfl

/-- C8 witness: creating with index 4 and no position against the empty
collection. -/
theorem post_default_position_from_index_witness :
    ((⟨IndexField.num 4, none, none⟩ : CreateRequest).position = none) ∧
    ((postLeafHandler [] ⟨IndexField.num 4, none, none⟩ "t" true).leaf =
      some (sampleLeaf 4 "t")) ∧
    ((postLeafHandler [] ⟨IndexField.num 4, none, none⟩ "t" true).status =
      201) ∧
    ((sampleLeaf 4 "t").position.left =
        toString (20 + (sampleLeaf 4 "t").index.toNat * 2) ++ "%" ∧
      (sampleLeaf 4 "t").position.top =
        halfToString (60 + (sampleLeaf 4 "t").index.toNat * 3) ++ "%" ∧
      (sampleLeaf 4 "t").position.rotation =
        toString ((sampleLeaf 4 "t").index.toNat * 45) ++ "deg" ∧
      defaultPosition 4 =
        { left := "28%", top := "36%", rotation := "180deg" }) :=
  ⟨rfl, rfl, rfl,
   post_default_position_from_index [] ⟨IndexField.num 4, none, none⟩ "t"
     (sampleLeaf 4 "t") rfl rfl rfl⟩

/-- Appending a record whose index is fresh preserves index uniqueness. -/
theorem uniqueIndices_append (leaves : List Leaf) (nl : Leaf)
    (h : UniqueIndices leaves) (hni : nl.index ∉ leaves.map (·.index)) :
    UniqueIndices (leaves ++ [nl]) := by
  unfold UniqueIndices at h ⊢
  rw [List.map_append]
  simp [List.nodup_append, h, hni]

/-- Both outcomes of the push-and-save tail keep uniqueness when the new
record's index is fresh. -/
theorem finishCreate_preserves_uniqueIndices (leaves : List Leaf) (nl : Leaf)
    (saveOk : Bool) (h : UniqueIndices leaves)
    (hni : nl.index ∉ leaves.map (·.index)) :
    UniqueIndices (finishCreate leaves nl saveOk).finalLeaves := by
  cases saveOk
  · exact h
  · exact uniqueIndices_append leaves nl h hni

/-- One create request keeps the at-most-one-record-per-index invariant. -/
theorem postLeafHandler_preserves_uniqueIndices (leaves : List Leaf)
    (req : CreateRequest) (now : String) (saveOk : Bool)
    (h : UniqueIndices leaves) :
    UniqueIndices (postLeafHandler leaves req now saveOk).finalLeaves := by
  have hauto :
      UniqueIndices (autoIndexBranch leaves req now saveOk).finalLeaves := by
    exact finishCreate_preserves_uniqueIndices _ _ _ h
      (nextFreeIndex_correct (leaves.map (·.index))).1
  obtain ⟨idx, pos, src⟩ := req
  cases idx with
  | missing => exact hauto
  | notNumber => exact hauto
  | num i =>
    by_cases hi : 0 ≤ i
    · cases hfind : leaves.find? (fun l => l.index == i) with
      | some existing =>
        simpa [postLeafHandler, hi, hfind, UniqueIndices] using h
      | none =>
        have hni : (i : Int) ∉ leaves.map (·.index) := by
          intro hmem
          obtain ⟨l, hl, hli⟩ := List.mem_map.mp hmem
          exact absurd (beq_iff_eq.mpr hli) (List.find?_eq_none.mp hfind l hl)
        simp only [postLeafHandler, if_pos hi, hfind]
        exact finishCreate_preserves_uniqueIndices _ _ _ h hni
    · simp only [postLeafHandler, if_neg hi]
      exact hauto

/-- C9: starting from the empty collection, every sequence of sequentially
executed create and clear operations (with arbitrary request bodies,
timestamps and save outcomes) keeps at most one record per index value. -/
theorem create_clear_sequences_preserve_unique_indices (ops : List StoreOp) :
    UniqueIndices (ops.foldl applyOp []) := by
  have h : ∀ leaves : List Leaf, UniqueIndices leaves →
      UniqueIndices (ops.foldl applyOp leaves) := by
    induction ops with
    | nil => exact fun leaves h => h
    | cons op rest ih =>
      intro leaves h
      rw [List.foldl_cons]
      apply ih
      cases op with
      | createOp req now saveOk =>
        exact postLeafHandler_preserves_uniqueIndices leaves req now saveOk h
      | clearOp saveOk =>
        cases saveOk
        · exact h
        · simp [applyOp, deleteLeavesHandler, UniqueIndices]
  exact h [] (by simp [UniqueIndices])
